import Mathlib

/-!
A shallow embedding of the chunking / vector-index / similarity-query engine of
the `simscrape` repository, i.e. the code of
`src/simscrape/modules/pdfvector/processor.py` and
`src/simscrape/modules/pdfvector/query.py`, together with theorems settling
the specification claims about it.

Conventions used throughout:

* Python `float` values are modelled as exact rationals (`ℚ`).  The arithmetic
  the claims talk about (squared L2 distances, `score = 1 - d / 2`) is then
  carried out exactly; embedding vectors are opaque inputs, so no claim settled
  here depends on IEEE-754 rounding.
* Python strings are modelled as `List Char`.
* Python exceptions are modelled with `Except PyErr`; a call to `sys.exit n`
  is the outcome `PyErr.sysExit n`.
* The behaviour of the third-party calls that the two modules make
  (`numpy.array`, `faiss.IndexFlatL2`, `pickle`, langchain's
  `RecursiveCharacterTextSplitter`) is embedded following the documented and
  published semantics of those libraries; each such modelling step is recorded
  in a doc comment on the corresponding definition.
-/

namespace Simscrape

/-- Python exception outcomes relevant to the two modules.  `sysExit n` models
`sys.exit(n)` (the way `query.py` reacts to any load failure). -/
inductive PyErr where
  | valueError
  | indexError
  | runtimeError
  | assertionError
  | unpicklingError
  | sysExit (n : ℕ)
deriving DecidableEq

/-- The `metadata` dict attached to every chunk in `processor.py`
(`{"source": filename, "page": page_num + 1}`). -/
structure ChunkMeta where
  source : List Char
  page : ℕ
deriving DecidableEq

/-- One entry of the `text_chunks` list built by `split_text` in
`processor.py`: `{"text": chunk, "metadata": item["metadata"]}`. -/
structure Chunk where
  text : List Char
  metadata : ChunkMeta
deriving DecidableEq

/-- Default chunk, used only as the (never inspected) default of `List.getD`
in statements about valid indices. -/
def cDefault : Chunk := ⟨[], ⟨[], 0⟩⟩

/-- One element of the list returned by `query_faiss` in `query.py`:
`{"text": ..., "metadata": ..., "score": ...}`. -/
structure QueryResult where
  text : List Char
  metadata : ChunkMeta
  score : ℚ
deriving DecidableEq

/-- A `faiss.IndexFlatL2`.  faiss stores the added vectors verbatim in a flat
`float32` array `xb` of `ntotal * d` entries; we keep the same data grouped
into rows, one per stored vector, in insertion order (the id of a row is its
position).  `d` is the dimension the index was constructed with. -/
structure IndexFlatL2 where
  d : ℕ
  xb : List (List ℚ)
deriving DecidableEq

/-- `faiss.Index.add_with_ids`: the base-class implementation unconditionally
raises `RuntimeError("add_with_ids not implemented for this type of index")`,
and the flat index family (`IndexFlat` / `IndexFlatCodes`) does not override
it — adding with explicit ids requires an `IndexIDMap` wrapper.  The call in
`create_faiss_db` (processor.py line 98) therefore always fails, for every
argument, including an empty one. -/
def IndexFlatL2.add_with_ids (_idx : IndexFlatL2) (_xs : List (List ℚ))
    (_ids : List ℤ) : Except PyErr IndexFlatL2 :=
  .error .runtimeError

/-- `np.array(embeddings, dtype=np.float32)` succeeds on a list of rows iff
the rows all have one length (otherwise the array would be ragged and numpy
raises `ValueError`).  This predicate is that rectangularity check. -/
def allSameLen : List (List ℚ) → Bool
  | [] => true
  | v :: vs => vs.all (fun w => w.length = v.length)

/-! ### The pickle artifact

`create_faiss_db` persists `{"index": index, "text_chunks": text_chunks}` with
`pickle.dump`, and `load_vector_db` reads it back with `pickle.load`.  Pickle
is a faithful serializer: loading what was dumped reproduces the object graph
exactly (faiss indexes pickle through `faiss.serialize_index`, which round
trips every stored float bit-exactly; strings and ints round trip exactly).
We model the byte stream as a list of tokens and give an explicit
encoder/decoder pair for the dict that the two modules exchange. -/

/-- A token of the serialized artifact. -/
inductive Tok where
  | nat (n : ℕ)
  | rat (q : ℚ)
  | txt (s : List Char)
deriving DecidableEq

/-- Serialize one stored vector (its length, then its entries). -/
def encodeRow (r : List ℚ) : List Tok :=
  Tok.nat r.length :: r.map Tok.rat

/-- Serialize the stored vectors in order. -/
def encodeRows : List (List ℚ) → List Tok
  | [] => []
  | r :: rs => encodeRow r ++ encodeRows rs

/-- Serialize one chunk (text, metadata source, metadata page). -/
def encodeChunk (c : Chunk) : List Tok :=
  [Tok.txt c.text, Tok.txt c.metadata.source, Tok.nat c.metadata.page]

/-- Serialize the chunk array in order. -/
def encodeChunks : List Chunk → List Tok
  | [] => []
  | c :: cs => encodeChunk c ++ encodeChunks cs

/-- Serialize the whole pickled dict `{"index": ..., "text_chunks": ...}`:
the index dimension, the vector count, the vectors, the chunk count, the
chunks. -/
def encodeDb (index : IndexFlatL2) (text_chunks : List Chunk) : List Tok :=
  Tok.nat index.d :: Tok.nat index.xb.length ::
    (encodeRows index.xb ++ (Tok.nat text_chunks.length :: encodeChunks text_chunks))

/-- Read one natural-number token. -/
def decodeNat : List Tok → Except PyErr (ℕ × List Tok)
  | Tok.nat n :: rest => .ok (n, rest)
  | _ => .error .unpicklingError

/-- Read one rational token. -/
def decodeRat : List Tok → Except PyErr (ℚ × List Tok)
  | Tok.rat q :: rest => .ok (q, rest)
  | _ => .error .unpicklingError

/-- Read one string token. -/
def decodeTxt : List Tok → Except PyErr (List Char × List Tok)
  | Tok.txt s :: rest => .ok (s, rest)
  | _ => .error .unpicklingError

/-- Read `n` rational entries. -/
def decodeEntries : ℕ → List Tok → Except PyErr (List ℚ × List Tok)
  | 0, toks => .ok ([], toks)
  | n + 1, toks =>
    match decodeRat toks with
    | .error e => .error e
    | .ok (q, r1) =>
      match decodeEntries n r1 with
      | .error e => .error e
      | .ok (qs, r2) => .ok (q :: qs, r2)

/-- Read `n` stored vectors. -/
def decodeRows : ℕ → List Tok → Except PyErr (List (List ℚ) × List Tok)
  | 0, toks => .ok ([], toks)
  | n + 1, toks =>
    match decodeNat toks with
    | .error e => .error e
    | .ok (len, r1) =>
      match decodeEntries len r1 with
      | .error e => .error e
      | .ok (row, r2) =>
        match decodeRows n r2 with
        | .error e => .error e
        | .ok (rows, r3) => .ok (row :: rows, r3)

/-- Read `n` chunks. -/
def decodeChunks : ℕ → List Tok → Except PyErr (List Chunk × List Tok)
  | 0, toks => .ok ([], toks)
  | n + 1, toks =>
    match decodeTxt toks with
    | .error e => .error e
    | .ok (t, r1) =>
      match decodeTxt r1 with
      | .error e => .error e
      | .ok (src, r2) =>
        match decodeNat r2 with
        | .error e => .error e
        | .ok (pg, r3) =>
          match decodeChunks n r3 with
          | .error e => .error e
          | .ok (cs, r4) => .ok (⟨t, ⟨src, pg⟩⟩ :: cs, r4)

/-- Deserialize the pickled dict; any malformed stream is an unpickling
failure. -/
def decodeDb (toks : List Tok) : Except PyErr (IndexFlatL2 × List Chunk) :=
  match decodeNat toks with
  | .error e => .error e
  | .ok (d, r1) =>
    match decodeNat r1 with
    | .error e => .error e
    | .ok (nvec, r2) =>
      match decodeRows nvec r2 with
      | .error e => .error e
      | .ok (xb, r3) =>
        match decodeNat r3 with
        | .error e => .error e
        | .ok (nch, r4) =>
          match decodeChunks nch r4 with
          | .error e => .error e
          | .ok (chunks, _) => .ok (⟨d, xb⟩, chunks)

/-! ### The filesystem and the store -/

/-- The filesystem as seen through the one artifact path: a map from paths to
present file contents. -/
def FileSystem := String → Option (List Tok)

/-- The artifact path.  `processor.py` writes the constant
`DB_FILE = "./output/vector_database.pkl"`; `query.py` reads
`os.getenv("DB_FILE", "./output/vector_database.pkl")`, whose default is the
same path. -/
def dbFile : String := "./output/vector_database.pkl"

/-- A filesystem with no files. -/
def emptyFs : FileSystem := fun _ => none

/-- Replace the contents stored at a path. -/
def writeFile (fs : FileSystem) (p : String) (content : List Tok) : FileSystem :=
  fun q => if q = p then some content else fs q

/-- Lines 100–104 of `processor.py`:

```
faiss_db = {"index": index, "text_chunks": text_chunks}
with open(DB_FILE, "wb") as f:
    pickle.dump(faiss_db, f)
```

`open(DB_FILE, "wb")` truncates the target path in place, so the path first
holds an empty file; `pickle.dump` then writes the serialized dict into it.
The function returns the final filesystem together with the list of
filesystem states a concurrent reader of the path can observe, in order. -/
def saveFaissDb (index : IndexFlatL2) (text_chunks : List Chunk)
    (fs : FileSystem) : FileSystem × List FileSystem :=
  let fsOpened := writeFile fs dbFile []
  let fsWritten := writeFile fsOpened dbFile (encodeDb index text_chunks)
  (fsWritten, [fs, fsOpened, fsWritten])

/-- `create_faiss_db(text_chunks, embeddings)` of `processor.py`, lines
85–106, acting on an explicit filesystem:

* `np.array(embeddings, dtype=np.float32)` raises `ValueError` when the rows
  are ragged (no rectangular array can be formed);
* `vector_dim = embeddings_float32.shape[1]` raises `IndexError` when the
  input is empty, because `np.array([])` is 1-dimensional (shape `(0,)`);
* `index = faiss.IndexFlatL2(vector_dim)` builds an empty flat index;
* `ids = np.arange(len(embeddings_float32))`;
* `index.add_with_ids(embeddings_float32, ids)` always raises (see
  `IndexFlatL2.add_with_ids`), so control never reaches the save. -/
def create_faiss_db (text_chunks : List Chunk) (embeddings : List (List ℚ))
    (fs : FileSystem) : Except PyErr Unit × FileSystem :=
  if allSameLen embeddings then
    match embeddings with
    | [] => (.error .indexError, fs)
    | v :: _ =>
      let vector_dim := v.length
      let index : IndexFlatL2 := ⟨vector_dim, []⟩
      let ids := (List.range embeddings.length).map Int.ofNat
      match index.add_with_ids embeddings ids with
      | .error e => (.error e, fs)
      | .ok index2 => (.ok (), (saveFaissDb index2 text_chunks fs).1)
  else (.error .valueError, fs)

/-- `load_vector_db` of `query.py`, lines 29–41.  It unpickles `DB_FILE` and
returns the `"index"` and `"text_chunks"` fields (the embedder it also
returns is the external model, out of scope).  A missing file
(`FileNotFoundError`) is logged and turned into `sys.exit(1)`; every other
exception — in particular any unpickling failure — is caught by the broad
`except Exception` and also turned into `sys.exit(1)`.  Nothing checks that
the vector count matches the chunk count. -/
def load_vector_db (fs : FileSystem) : Except PyErr (IndexFlatL2 × List Chunk) :=
  match fs dbFile with
  | none => .error (.sysExit 1)
  | some toks =>
    match decodeDb toks with
    | .error _ => .error (.sysExit 1)
    | .ok db => .ok db

/-! ### The query engine -/

/-- Squared Euclidean (L2²) distance, the metric of `faiss.IndexFlatL2`. -/
def sqL2 (x y : List ℚ) : ℚ :=
  ((x.zip y).map (fun p => (p.1 - p.2) ^ 2)).sum

/-- `FLT_MAX`, exactly: `(2 - 2⁻²³) · 2¹²⁷`.  When `faiss` is asked for more
results than the index holds, the result heap keeps its initial entries,
which are the distance `std::numeric_limits<float>::max()` paired with the
label `-1`. -/
def fltMax : ℚ := 2 ^ 128 - 2 ^ 104

/-- The ordering faiss returns results in: ascending distance. -/
def distLe (a b : ℚ × ℤ) : Prop := a.1 ≤ b.1

instance : DecidableRel distLe := fun a b =>
  inferInstanceAs (Decidable (a.1 ≤ b.1))

instance : IsTotal (ℚ × ℤ) distLe := ⟨fun a b => le_total a.1 b.1⟩

instance : IsTrans (ℚ × ℤ) distLe := ⟨fun _ _ _ h h2 => le_trans h h2⟩

/-- The brute-force distance table of `faiss.IndexFlatL2`: the distance from
the query to every stored vector, paired with the vector's id, in id order. -/
def distPairs (idx : IndexFlatL2) (q : List ℚ) : List (ℚ × ℤ) :=
  (List.range idx.xb.length).map
    (fun i => (sqL2 q (idx.xb.getD i []), (i : ℤ)))

/-- `index.search(x, k)` of `faiss.IndexFlatL2` for a single query row:

* the python wrapper (`replacement_search`) asserts the query dimension
  equals the index dimension and asserts `k > 0`, raising `AssertionError`
  otherwise;
* the search itself is exact: every stored vector is compared, and the `k`
  smallest squared distances are returned in ascending order with ties broken
  by ascending id (the scan processes ids in ascending order and replaces a
  heap entry only on strictly smaller distance — a stable selection);
* when `k` exceeds the number of stored vectors the remaining slots keep the
  heap's initial value: distance `FLT_MAX`, id `-1`. -/
def IndexFlatL2.search (idx : IndexFlatL2) (q : List ℚ) (k : ℤ) :
    Except PyErr (List (ℚ × ℤ)) :=
  if q.length = idx.d then
    if 0 < k then
      let sorted := List.insertionSort distLe (distPairs idx q)
      .ok (sorted.take k.toNat ++
        List.replicate (k.toNat - idx.xb.length) (fltMax, -1))
    else .error .assertionError
  else .error .assertionError

/-- Python list indexing `text_chunks[idx]` with a (possibly negative) signed
index: a negative index counts from the end; an index out of range on either
side raises `IndexError`. -/
def pyIndex (l : List Chunk) (i : ℤ) : Except PyErr Chunk :=
  let j : ℤ := if i < 0 then (l.length : ℤ) + i else i
  if 0 ≤ j ∧ j < (l.length : ℤ) then .ok (l.getD j.toNat cDefault)
  else .error .indexError

/-- The result loop of `query_faiss` (query.py lines 61–69):

```
for dist, idx in zip(distances[0], indices[0]):
    score = 1 - (dist / 2)
    if score >= min_score:
        results.append({"text": text_chunks[idx]["text"], ...})
```

The loop walks the search output in order, keeps entries whose score clears
the threshold, and raises as soon as `text_chunks[idx]` is out of range. -/
def buildResults (text_chunks : List Chunk) (min_score : ℚ) :
    List (ℚ × ℤ) → Except PyErr (List QueryResult)
  | [] => .ok []
  | (dist, idx) :: rest =>
    let score := 1 - dist / 2
    if min_score ≤ score then
      match pyIndex text_chunks idx with
      | .error e => .error e
      | .ok c =>
        match buildResults text_chunks min_score rest with
        | .error e => .error e
        | .ok rs => .ok (⟨c.text, c.metadata, score⟩ :: rs)
    else buildResults text_chunks min_score rest

/-- `query_faiss` (query.py lines 44–71) after the loaded state is in hand:
the query string has been embedded into `query_embedding`
(`embedder.encode([query])` — the embedder is the external model), the index
is searched with `max_results`, and the result loop filters by score.
`query_faiss` itself performs no validation of `min_score` or `max_results`
and no sorting of its own. -/
def query_faiss_core (index : IndexFlatL2) (text_chunks : List Chunk)
    (query_embedding : List ℚ) (min_score : ℚ) (max_results : ℤ) :
    Except PyErr (List QueryResult) :=
  match index.search query_embedding max_results with
  | .error e => .error e
  | .ok pairs => buildResults text_chunks min_score pairs

/-- `query_faiss` including its first line, `load_vector_db()`. -/
def query_faiss (fs : FileSystem) (query_embedding : List ℚ)
    (min_score : ℚ) (max_results : ℤ) : Except PyErr (List QueryResult) :=
  match load_vector_db fs with
  | .error e => .error e
  | .ok (index, text_chunks) =>
    query_faiss_core index text_chunks query_embedding min_score max_results

/-! ### The text splitter

`split_text` in `processor.py` delegates to langchain's
`RecursiveCharacterTextSplitter(chunk_size=512, chunk_overlap=50)`, which
uses the default separator priority list `["\n\n", "\n", " ", ""]` and the
default `keep_separator=True`.  The algorithm (`_split_text`):

1. pick the first separator in the list that either is `""` or occurs in the
   text (the loop always breaks, because `""` is last);
2. split the text on it, keeping each separator attached as a prefix of the
   fragment that follows it, and dropping empty fragments
   (`_split_text_with_regex`); for the `""` separator the fragments are the
   single characters;
3. walk the fragments, greedily collecting "good" ones (length strictly below
   `chunk_size`) and merging each collected run into chunks
   (`_merge_splits`); a fragment of length `≥ chunk_size` is recursed into
   with the remaining separators, or — only possible at the `""` level —
   emitted as is;
4. because `keep_separator=True`, every merge joins with the empty separator.

The recursion always descends to a strict suffix of the separator list, so we
embed it unrolled: one definition per suffix of the concrete list. -/

/-- Characters `str.strip()` removes (the ASCII whitespace set; the corpus
text is ASCII-relevant here, and stripping only ever shortens a chunk). -/
def pySpace : List Char := [' ', '\t', '\n', '\r', '\x0b', '\x0c']

/-- Python `str.strip()`. -/
def pyStrip (s : List Char) : List Char :=
  ((s.dropWhile (· ∈ pySpace)).reverse.dropWhile (· ∈ pySpace)).reverse

/-- Total length of a run of fragments. -/
def sumLen (l : List (List Char)) : ℕ := (l.map List.length).sum

/-- The running `total` that `_merge_splits` maintains incrementally: the
fragment lengths plus one separator length between each adjacent pair. -/
def totalOf (sLen : ℕ) (cur : List (List Char)) : ℕ :=
  sumLen cur + sLen * (cur.length - 1)

/-- `_join_docs`: join with the separator, strip, and drop the chunk when
nothing is left. -/
def joinDocs (sep : List Char) (docs : List (List Char)) : Option (List Char) :=
  let text := pyStrip (List.intercalate sep docs)
  if text = [] then none else some text

/-- The pop loop of `_merge_splits`: after a chunk is closed, fragments are
dropped from the front of `current_doc` while the running total exceeds
`chunk_overlap`, or while it is positive and adding the next fragment (of
length `nlen`) would exceed `chunk_size`. -/
def popWhile (cs ov sLen nlen : ℕ) : List (List Char) → List (List Char)
  | [] => []
  | x :: rest =>
    if totalOf sLen (x :: rest) > ov ∨
        (totalOf sLen (x :: rest) + nlen +
            (if (x :: rest) = [] then 0 else sLen) > cs ∧
          totalOf sLen (x :: rest) > 0) then
      popWhile cs ov sLen nlen rest
    else x :: rest

/-- The fragment loop of `_merge_splits`: when adding the next fragment would
push the running total past `chunk_size`, the current run is closed into a
chunk (if nonempty) and popped down so the next chunk re-includes up to
`chunk_overlap` trailing characters; the fragment is then appended. -/
def mergeGo (cs ov : ℕ) (sep : List Char) :
    List (List Char) → List (List Char) → List (List Char)
  | [], cur =>
    match joinDocs sep cur with
    | none => []
    | some doc => [doc]
  | d :: rest, cur =>
    if totalOf sep.length cur + d.length +
        (if cur = [] then 0 else sep.length) > cs then
      if cur = [] then mergeGo cs ov sep rest (cur ++ [d])
      else
        (match joinDocs sep cur with
          | none => []
          | some doc => [doc]) ++
          mergeGo cs ov sep rest (popWhile cs ov sep.length d.length cur ++ [d])
    else mergeGo cs ov sep rest (cur ++ [d])

/-- `_merge_splits(splits, separator)`. -/
def mergeSplits (cs ov : ℕ) (splits : List (List Char)) (sep : List Char) :
    List (List Char) :=
  mergeGo cs ov sep splits []

/-- Splitting on a literal separator, leftmost first (what
`re.split` does on the escaped separator): worker with fuel, one unit per
consumed character. -/
def splitOnAux (sep : List Char) : ℕ → List Char → List Char → List (List Char)
  | 0, rem, acc => [acc.reverse ++ rem]
  | _ + 1, [], acc => [acc.reverse]
  | fuel + 1, c :: rest, acc =>
    if sep ≠ [] ∧ sep.isPrefixOf (c :: rest) then
      acc.reverse :: splitOnAux sep fuel ((c :: rest).drop sep.length) []
    else splitOnAux sep fuel rest (c :: acc)

/-- Split `text` on every occurrence of the (nonempty) separator. -/
def splitOnSep (sep text : List Char) : List (List Char) :=
  splitOnAux sep text.length text []

/-- `_split_text_with_regex(text, separator, keep_separator=True)`: for a
nonempty separator, split and re-attach each separator occurrence as a prefix
of the following fragment; for the `""` separator, the fragments are the
single characters; empty fragments are dropped. -/
def splitTextWithSep (sep text : List Char) : List (List Char) :=
  let splits :=
    if sep = [] then text.map (fun c => [c])
    else
      match splitOnSep sep text with
      | [] => []
      | f :: fs => f :: fs.map (fun g => sep ++ g)
  splits.filter (fun s => s ≠ [])

/-- The fragment loop of `_split_text`: fragments of length < `chunk_size`
are collected into `goods`; when a larger fragment interrupts, the collected
run is merged and flushed, and the fragment is recursed into (when more
separators remain) or emitted raw (at the `""` level).  Merging always uses
the empty separator because `keep_separator=True`. -/
def splitLoop (cs ov : ℕ) (hasNext : Bool)
    (recurse : List Char → List (List Char)) :
    List (List Char) → List (List Char) → List (List Char)
  | [], goods => if goods = [] then [] else mergeSplits cs ov goods []
  | s :: rest, goods =>
    if s.length < cs then splitLoop cs ov hasNext recurse rest (goods ++ [s])
    else
      (if goods = [] then [] else mergeSplits cs ov goods []) ++
        (if hasNext then recurse s else [s]) ++
        splitLoop cs ov hasNext recurse rest []

/-- The paragraph-break separator `"\n\n"`. -/
def sepParagraph : List Char := ['\n', '\n']

/-- The line-break separator `"\n"`. -/
def sepLine : List Char := ['\n']

/-- The word separator `" "`. -/
def sepSpace : List Char := [' ']

/-- `_split_text(text, [""])`: the chooser selects the empty separator at
once; the text is split into characters and merged; a character can only be
"bad" when `chunk_size ≤ 1` and is then emitted raw. -/
def splitBySeps3 (cs ov : ℕ) (text : List Char) : List (List Char) :=
  splitLoop cs ov false (fun t => [t]) (splitTextWithSep [] text) []

/-- `_split_text(text, [" ", ""])`. -/
def splitBySeps2 (cs ov : ℕ) (text : List Char) : List (List Char) :=
  if sepSpace <:+: text then
    splitLoop cs ov true (splitBySeps3 cs ov) (splitTextWithSep sepSpace text) []
  else splitLoop cs ov false (fun t => [t]) (splitTextWithSep [] text) []

/-- `_split_text(text, ["\n", " ", ""])`. -/
def splitBySeps1 (cs ov : ℕ) (text : List Char) : List (List Char) :=
  if sepLine <:+: text then
    splitLoop cs ov true (splitBySeps2 cs ov) (splitTextWithSep sepLine text) []
  else if sepSpace <:+: text then
    splitLoop cs ov true (splitBySeps3 cs ov) (splitTextWithSep sepSpace text) []
  else splitLoop cs ov false (fun t => [t]) (splitTextWithSep [] text) []

/-- `RecursiveCharacterTextSplitter.split_text`, i.e. `_split_text` with the
full default separator list `["\n\n", "\n", " ", ""]`. -/
def rcSplitText (cs ov : ℕ) (text : List Char) : List (List Char) :=
  if sepParagraph <:+: text then
    splitLoop cs ov true (splitBySeps1 cs ov) (splitTextWithSep sepParagraph text) []
  else if sepLine <:+: text then
    splitLoop cs ov true (splitBySeps2 cs ov) (splitTextWithSep sepLine text) []
  else if sepSpace <:+: text then
    splitLoop cs ov true (splitBySeps3 cs ov) (splitTextWithSep sepSpace text) []
  else splitLoop cs ov false (fun t => [t]) (splitTextWithSep [] text) []

/-- One element of the `text_data` list (`extract_text_from_pdfs` output):
page text with its metadata. -/
structure TextItem where
  text : List Char
  metadata : ChunkMeta

/-- `split_text(text_data)` of `processor.py`, lines 58–71: split every
item's text with `RecursiveCharacterTextSplitter(chunk_size=512,
chunk_overlap=50)` and copy the item's metadata onto each produced chunk. -/
def split_text (text_data : List TextItem) : List Chunk :=
  (text_data.map (fun item =>
    (rcSplitText 512 50 item.text).map (fun c => ⟨c, item.metadata⟩))).flatten

/-! ## Round-trip lemmas for the persisted artifact -/

/-- Decoding the encoding of a vector's entries returns the vector and the
remaining stream. -/
theorem decodeEntries_encode (r : List ℚ) (rest : List Tok) :
    decodeEntries r.length (r.map Tok.rat ++ rest) = .ok (r, rest) := by
  induction r generalizing rest with
  | nil => rfl
  | cons q qs ih => simp [decodeEntries, decodeRat, ih]

/-- Decoding the encoding of the stored vectors returns them and the
remaining stream. -/
theorem decodeRows_encode (rs : List (List ℚ)) (rest : List Tok) :
    decodeRows rs.length (encodeRows rs ++ rest) = .ok (rs, rest) := by
  induction rs generalizing rest with
  | nil => rfl
  | cons r rs ih =>
    simp [encodeRows, encodeRow, decodeRows, decodeNat, List.append_assoc,
      decodeEntries_encode, ih]

/-- Decoding the encoding of the chunk array returns it and the remaining
stream. -/
theorem decodeChunks_encode (cs : List Chunk) (rest : List Tok) :
    decodeChunks cs.length (encodeChunks cs ++ rest) = .ok (cs, rest) := by
  induction cs generalizing rest with
  | nil => rfl
  | cons c cs ih =>
    simp [encodeChunks, encodeChunk, decodeChunks, decodeTxt, decodeNat, ih]

/-- Decoding the encoding of the whole artifact reproduces the index and the
chunk array exactly. -/
theorem decodeDb_encodeDb (index : IndexFlatL2) (text_chunks : List Chunk) :
    decodeDb (encodeDb index text_chunks) = .ok (index, text_chunks) := by
  have hrows := decodeRows_encode index.xb
    (Tok.nat text_chunks.length :: encodeChunks text_chunks)
  have hchunks := decodeChunks_encode text_chunks []
  simp only [List.append_nil] at hchunks
  simp [decodeDb, encodeDb, decodeNat, hrows, hchunks]

/-! ## Claim C3 — round-trip persistence -/

/-- C3: for every index and chunk array (the empty ones included), saving the
artifact and loading it back from the same path yields an index and a chunk
array equal to the originals, every stored number and every character of
every chunk's text and metadata included. -/
theorem c3_save_load_round_trip (index : IndexFlatL2) (text_chunks : List Chunk)
    (fs : FileSystem) :
    load_vector_db (saveFaissDb index text_chunks fs).1 =
      .ok (index, text_chunks) := by
  simp [load_vector_db, saveFaissDb, writeFile, decodeDb_encodeDb]

/-! ## Claims C2, C4, C5 — the build path -/

/-- C2 (code bug): the claimed build/search consistency is unobservable
because the build itself always fails.  On the one-vector input `[[1, 0]]`,
`create_faiss_db` raises `RuntimeError` at `index.add_with_ids` (the call is
not implemented for `faiss.IndexFlatL2`), so no index is ever built, let
alone searched. -/
theorem c2_build_always_raises :
    ∀ fs : FileSystem,
      create_faiss_db [⟨['t'], ⟨['s'], 1⟩⟩] [[1, 0]] fs =
        (.error .runtimeError, fs) :=
  fun _ => rfl

/-- C4 (code bug): building from the empty vector list does not succeed.
`np.array([])` has shape `(0,)`, so `embeddings_float32.shape[1]` raises
`IndexError` and `create_faiss_db` fails before an index exists. -/
theorem c4_empty_build_raises :
    ∀ fs : FileSystem, create_faiss_db [] [] fs = (.error .indexError, fs) :=
  fun _ => rfl

/-- C5 (code bug): the first half of the claim holds — on the mismatched
vectors `[1,2,3]` then `[1,2]` the build fails at the `np.array` conversion
(`ValueError`, the code's rendering of a dimension mismatch) with the
filesystem untouched, so no artifact is written.  The second half fails —
on vectors of one shared length the build does not assign ids 0..n-1 but
raises `RuntimeError` at `index.add_with_ids`, again leaving the filesystem
untouched. -/
theorem c5_mismatch_raises_uniform_also_raises :
    (∀ fs : FileSystem,
      create_faiss_db [] [[1, 2, 3], [1, 2]] fs = (.error .valueError, fs)) ∧
    (∀ fs : FileSystem,
      create_faiss_db [] [[1], [2]] fs = (.error .runtimeError, fs)) :=
  ⟨fun _ => rfl, fun _ => rfl⟩

/-! ## Claim C6 — load errors -/

/-- A filesystem holding a decodable artifact whose vector count (1) differs
from its chunk count (0). -/
def misFs : FileSystem := writeFile emptyFs dbFile (encodeDb ⟨1, [[0]]⟩ [])

/-- C6 (counterexample): the claim says a load whose vector count differs
from its chunk count fails with `StoreCorruptError`.  On a stored artifact
with one vector and zero chunks, `load_vector_db` succeeds and hands the
misaligned pair to the caller — there is no alignment check anywhere in
`query.py`. -/
theorem c6_counterexample_misaligned_load_succeeds :
    load_vector_db misFs = .ok (⟨1, [[0]]⟩, []) ∧
      (IndexFlatL2.mk 1 [[0]]).xb.length ≠ ([] : List Chunk).length := by
  constructor
  · simp [misFs, load_vector_db, writeFile, decodeDb_encodeDb]
  · decide

/-- C6 (amended): `load_vector_db` terminates the process with exit code 1
when the path is missing (the `FileNotFoundError` is logged, not surfaced)
and likewise on any unpickling failure (swallowed by the broad
`except Exception`); when the artifact decodes, the pair is returned exactly
as stored, with no check that the vector count equals the chunk count. -/
theorem c6_amended_load_exits_and_skips_alignment :
    (∀ fs : FileSystem, fs dbFile = none →
      load_vector_db fs = .error (.sysExit 1)) ∧
    (∀ (fs : FileSystem) (toks : List Tok) (e : PyErr),
      fs dbFile = some toks → decodeDb toks = .error e →
      load_vector_db fs = .error (.sysExit 1)) ∧
    (∀ (fs : FileSystem) (toks : List Tok) (db : IndexFlatL2 × List Chunk),
      fs dbFile = some toks → decodeDb toks = .ok db →
      load_vector_db fs = .ok db) := by
  refine ⟨fun fs h => ?_, fun fs toks e h hd => ?_, fun fs toks db h hd => ?_⟩
  · simp [load_vector_db, h]
  · simp [load_vector_db, h, hd]
  · simp [load_vector_db, h, hd]

/-- Witness for C6 (amended): on the empty filesystem the load exits with
code 1. -/
theorem c6_amended_witness : load_vector_db emptyFs = .error (.sysExit 1) :=
  c6_amended_load_exits_and_skips_alignment.1 emptyFs rfl

/-! ## Claim C8 — atomicity of the save -/

/-- A filesystem already holding a complete artifact at the target path. -/
def fsWithOld : FileSystem :=
  writeFile emptyFs dbFile (encodeDb ⟨1, [[1]]⟩ [⟨['a'], ⟨['s'], 1⟩⟩])

/-- C8 (counterexample): the claim says a reader of the path never observes
a half-written artifact.  Writing a new artifact over `fsWithOld` exposes an
intermediate state (the second observable state of the save) in which the
path holds a truncated, empty file — neither the old artifact nor the new
one. -/
theorem c8_counterexample_truncated_state_visible :
    ((saveFaissDb ⟨1, [[2]]⟩ [⟨['b'], ⟨['s'], 2⟩⟩] fsWithOld).2.getD 1 emptyFs)
        dbFile = some [] ∧
      fsWithOld dbFile ≠ some [] ∧
      ((saveFaissDb ⟨1, [[2]]⟩ [⟨['b'], ⟨['s'], 2⟩⟩] fsWithOld).1) dbFile ≠
        some [] := by
  refine ⟨?_, ?_, ?_⟩ <;> simp [saveFaissDb, fsWithOld, writeFile, encodeDb]

/-- C8 (amended): the save is not atomic and uses no temporary location.  It
opens the target path directly — truncating it, so a reader can observe the
empty in-place file — and then writes the complete artifact to the same
path. -/
theorem c8_amended_save_writes_in_place (index : IndexFlatL2)
    (text_chunks : List Chunk) (fs : FileSystem) :
    (saveFaissDb index text_chunks fs).2 =
      [fs, writeFile fs dbFile [], (saveFaissDb index text_chunks fs).1] ∧
    (saveFaissDb index text_chunks fs).1 dbFile =
      some (encodeDb index text_chunks) := by
  exact ⟨rfl, by simp [saveFaissDb, writeFile]⟩

deriving instance DecidableEq for Except

/-! ## Claim C7 — query parameter validation -/

/-- C7 (counterexample): the claim says a `min_score` outside `[0,1]` makes
the call fail with `InvalidArgumentError`.  With `min_score = 2` on a
one-vector store, `query_faiss` performs the whole search and returns
normally (an empty result list): no validation of `min_score` exists
anywhere in `query.py`. -/
theorem c7_counterexample_out_of_range_min_score_accepted :
    query_faiss_core ⟨1, [[0]]⟩ [⟨['t'], ⟨['s'], 1⟩⟩] [0] 2 1 = .ok [] := by
  norm_num [query_faiss_core, IndexFlatL2.search, distPairs, sqL2,
    List.insertionSort, List.orderedInsert, buildResults, pyIndex]

/-- C7 (amended): `query_faiss` validates neither parameter.  A
`max_results ≤ 0` is rejected only by the `assert k > 0` inside
`index.search` — an `AssertionError` after the search call is entered, not a
typed `InvalidArgumentError` before any search work — while `min_score` is
accepted unchecked, any out-of-range value simply being used as the filter
threshold (a threshold above 1 silently filters everything out). -/
theorem c7_amended_no_parameter_validation :
    (∀ (index : IndexFlatL2) (text_chunks : List Chunk) (q : List ℚ)
        (min_score : ℚ) (max_results : ℤ),
      q.length = index.d → max_results ≤ 0 →
      query_faiss_core index text_chunks q min_score max_results =
        .error .assertionError) ∧
    (∀ min_score : ℚ, 1 < min_score →
      query_faiss_core ⟨1, [[0]]⟩ [⟨['t'], ⟨['s'], 1⟩⟩] [0] min_score 1 =
        .ok []) := by
  constructor
  · intro index text_chunks q min_score max_results hq hk
    simp [query_faiss_core, IndexFlatL2.search, hq, not_lt.mpr hk]
  · intro min_score hms
    have hcond : ¬ (min_score ≤ (1 : ℚ)) := not_le.mpr hms
    simp [query_faiss_core, IndexFlatL2.search, distPairs, sqL2,
      List.insertionSort, List.orderedInsert, buildResults, hcond]

/-- Witness for C7 (amended): both halves at concrete inputs —
`max_results = 0` trips the search assertion, `min_score = 3` is accepted
and yields an empty result. -/
theorem c7_amended_witness :
    query_faiss_core ⟨1, [[0]]⟩ [⟨['t'], ⟨['s'], 1⟩⟩] [0] (1 / 2) 0 =
        .error .assertionError ∧
      query_faiss_core ⟨1, [[0]]⟩ [⟨['t'], ⟨['s'], 1⟩⟩] [0] 3 1 = .ok [] :=
  ⟨c7_amended_no_parameter_validation.1 _ _ _ _ 0 (by decide) (by decide),
    c7_amended_no_parameter_validation.2 3 (by norm_num)⟩

/-! ## Claim C10 — sentinel padding leaks the last chunk -/

/-- C10: with one stored vector, `max_results = 2` and a `min_score` low
enough to pass the sentinel's score (the code never validates `min_score`),
the search pads its output with the sentinel `(FLT_MAX, -1)`; the result
loop then evaluates `text_chunks[-1]`, which in Python selects the *last*
stored chunk, so the returned sequence has a second, spurious entry carrying
the last chunk's text and metadata under the sentinel-derived score
`1 - FLT_MAX / 2` — an entry corresponding to no valid id `0..n-1`. -/
theorem c10_sentinel_padding_spurious_entry :
    query_faiss_core ⟨1, [[0]]⟩ [⟨['t'], ⟨['s'], 1⟩⟩] [0] (1 - fltMax / 2) 2 =
        .ok [⟨['t'], ⟨['s'], 1⟩, 1⟩, ⟨['t'], ⟨['s'], 1⟩, 1 - fltMax / 2⟩] ∧
      (IndexFlatL2.mk 1 [[0]]).xb.length = 1 := by
  constructor
  · norm_num [query_faiss_core, IndexFlatL2.search, distPairs, sqL2,
      List.insertionSort, List.orderedInsert, List.replicate, buildResults,
      pyIndex, fltMax]
  · rfl

/-! ## Claim C1 — the ranking contract -/

/-- The result record the loop builds for a search pair (distance, id) whose
chunk lookup succeeds; the error branch is never reached when the lookup is
valid. -/
def resOf (text_chunks : List Chunk) (p : ℚ × ℤ) : QueryResult :=
  match pyIndex text_chunks p.2 with
  | .ok c => ⟨c.text, c.metadata, 1 - p.1 / 2⟩
  | .error _ => ⟨[], ⟨[], 0⟩, 1 - p.1 / 2⟩

/-- The score field of `resOf` is the converted distance, in either branch. -/
theorem resOf_score (text_chunks : List Chunk) (p : ℚ × ℤ) :
    (resOf text_chunks p).score = 1 - p.1 / 2 := by
  unfold resOf
  cases pyIndex text_chunks p.2 <;> rfl

/-- When every pair that clears the threshold has a valid chunk lookup, the
result loop succeeds and returns exactly the thresholded pairs, in order,
mapped to result records. -/
theorem buildResults_eq (text_chunks : List Chunk) (ms : ℚ)
    (pairs : List (ℚ × ℤ))
    (h : ∀ p ∈ pairs, ms ≤ 1 - p.1 / 2 → ∃ c, pyIndex text_chunks p.2 = .ok c) :
    buildResults text_chunks ms pairs =
      .ok ((pairs.filter (fun p => ms ≤ 1 - p.1 / 2)).map (resOf text_chunks)) := by
  induction pairs with
  | nil => rfl
  | cons p rest ih =>
    obtain ⟨d, i⟩ := p
    have hrest := ih (fun p hp => h p (List.mem_cons_of_mem _ hp))
    by_cases hc : ms ≤ 1 - d / 2
    · obtain ⟨c, hcok⟩ := h (d, i) (List.mem_cons_self _ _) hc
      simp [buildResults, hc, hcok, hrest, List.filter_cons, resOf]
    · simp [buildResults, hc, hrest, List.filter_cons]

/-- A valid search: when the query dimension matches and `k > 0`, the search
returns the `k` closest pairs in ascending distance order, padded with the
sentinel when `k` exceeds the stored count. -/
theorem search_ok (idx : IndexFlatL2) (q : List ℚ) (k : ℤ)
    (hq : q.length = idx.d) (hk : 0 < k) :
    idx.search q k =
      .ok ((List.insertionSort distLe (distPairs idx q)).take k.toNat ++
        List.replicate (k.toNat - idx.xb.length) (fltMax, -1)) := by
  simp [IndexFlatL2.search, hq, hk]

/-- Every pair of the distance table is an id below the stored count together
with the exact squared distance to that id's stored vector. -/
theorem distPairs_mem {idx : IndexFlatL2} {q : List ℚ} {p : ℚ × ℤ}
    (hp : p ∈ distPairs idx q) :
    ∃ i, i < idx.xb.length ∧ p = (sqL2 q (idx.xb.getD i []), (i : ℤ)) := by
  simp only [distPairs, List.mem_map, List.mem_range] at hp
  obtain ⟨i, hi, hpe⟩ := hp
  exact ⟨i, hi, hpe.symm⟩

/-- A nonnegative threshold always filters the sentinel out: its score
`1 - FLT_MAX / 2` is far below zero. -/
theorem pad_score_filtered {ms : ℚ} (hms : 0 ≤ ms) : ¬ ms ≤ 1 - fltMax / 2 := by
  have h : (1 : ℚ) - fltMax / 2 < 0 := by norm_num [fltMax]
  linarith

/-- Python indexing at a plain natural index below the length. -/
theorem pyIndex_coe_nat (l : List Chunk) (i : ℕ) (h : i < l.length) :
    pyIndex l (i : ℤ) = .ok (l.getD i cDefault) := by
  have h0 : ¬ ((i : ℤ) < 0) := by omega
  have h1 : 0 ≤ (i : ℤ) ∧ (i : ℤ) < (l.length : ℤ) := by omega
  simp [pyIndex, h0, h1, Int.toNat_natCast]

/-- C1: for a loaded store satisfying the index invariants (query dimension
matches, the chunk array is aligned with the stored vectors), any query with
`min_score ∈ [0,1]` and `max_results > 0` succeeds, and the returned sequence
has at most `max_results` entries, every entry scores at least `min_score`,
every entry's score is exactly `1 - d/2` for `d` the squared L2 distance
between the query embedding and the stored vector whose chunk the entry
carries, and the entries are sorted non-increasing by score. -/
theorem c1_ranking_contract (index : IndexFlatL2) (text_chunks : List Chunk)
    (q : List ℚ) (min_score : ℚ) (max_results : ℤ)
    (hms0 : 0 ≤ min_score) (_hms1 : min_score ≤ 1) (hmr : 0 < max_results)
    (hdim : q.length = index.d)
    (halign : index.xb.length = text_chunks.length) :
    ∃ res, query_faiss_core index text_chunks q min_score max_results = .ok res ∧
      (res.length : ℤ) ≤ max_results ∧
      (∀ r ∈ res, min_score ≤ r.score) ∧
      (∀ r ∈ res, ∃ i, i < index.xb.length ∧
        r.score = 1 - sqL2 q (index.xb.getD i []) / 2 ∧
        r.text = (text_chunks.getD i cDefault).text ∧
        r.metadata = (text_chunks.getD i cDefault).metadata) ∧
      List.Pairwise (fun a b => b.score ≤ a.score) res := by
  classical
  set sorted := List.insertionSort distLe (distPairs index q) with hsorted_def
  set top := sorted.take max_results.toNat with htop_def
  set pad := List.replicate (max_results.toNat - index.xb.length)
    ((fltMax, -1) : ℚ × ℤ) with hpad_def
  have hsearch := search_ok index q max_results hdim hmr
  rw [← hsorted_def] at hsearch
  rw [← htop_def, ← hpad_def] at hsearch
  -- membership in `top` comes from the distance table
  have htop_mem : ∀ p ∈ top, ∃ i, i < index.xb.length ∧
      p = (sqL2 q (index.xb.getD i []), (i : ℤ)) := by
    intro p hp
    exact distPairs_mem ((List.mem_insertionSort distLe).mp
      (List.mem_of_mem_take hp))
  -- the sentinel entries never clear the threshold
  have hpad_not : ∀ p ∈ pad, ¬ min_score ≤ 1 - p.1 / 2 := by
    intro p hp
    rw [List.eq_of_mem_replicate hp]
    exact pad_score_filtered hms0
  -- every surviving pair has a valid chunk lookup
  have hvalid : ∀ p ∈ top ++ pad, min_score ≤ 1 - p.1 / 2 →
      ∃ c, pyIndex text_chunks p.2 = .ok c := by
    intro p hp hsc
    rcases List.mem_append.mp hp with hmem | hmem
    · obtain ⟨i, hi, hpe⟩ := htop_mem p hmem
      refine ⟨text_chunks.getD i cDefault, ?_⟩
      rw [hpe]
      exact pyIndex_coe_nat text_chunks i (halign ▸ hi)
    · exact absurd hsc (hpad_not p hmem)
  have hbuild := buildResults_eq text_chunks min_score (top ++ pad) hvalid
  -- the sentinel part of the filter is empty
  have hpadnil : pad.filter (fun p => min_score ≤ 1 - p.1 / 2) = [] := by
    rw [List.filter_eq_nil_iff]
    intro p hp
    simpa using hpad_not p hp
  have hfilter : (top ++ pad).filter (fun p => min_score ≤ 1 - p.1 / 2) =
      top.filter (fun p => min_score ≤ 1 - p.1 / 2) := by
    rw [List.filter_append, hpadnil, List.append_nil]
  refine ⟨((top ++ pad).filter (fun p => min_score ≤ 1 - p.1 / 2)).map
    (resOf text_chunks), ?_, ?_, ?_, ?_, ?_⟩
  · simp only [query_faiss_core, hsearch, hbuild]
  · -- length bound
    have h1 : ((top ++ pad).filter (fun p => min_score ≤ 1 - p.1 / 2)).length ≤
        top.length := by
      rw [hfilter]
      exact List.length_filter_le _ _
    have h2 : top.length ≤ max_results.toNat := by
      rw [htop_def]
      simp
    simp only [List.length_map]
    omega
  · -- threshold
    intro r hr
    simp only [List.mem_map] at hr
    obtain ⟨p, hp, hre⟩ := hr
    have hc := (List.mem_filter.mp hp).2
    rw [← hre, resOf_score]
    simpa using hc
  · -- each entry comes from a stored vector and its aligned chunk
    intro r hr
    simp only [List.mem_map] at hr
    obtain ⟨p, hp, hre⟩ := hr
    have hptop : p ∈ top := by
      have := (List.mem_filter.mp hp).1
      rcases List.mem_append.mp this with h | h
      · exact h
      · exact absurd ((List.mem_filter.mp hp).2)
          (by simpa using hpad_not p h)
    obtain ⟨i, hi, hpe⟩ := htop_mem p hptop
    refine ⟨i, hi, ?_, ?_, ?_⟩ <;>
    · rw [← hre]
      have hlookup := pyIndex_coe_nat text_chunks i (halign ▸ hi)
      simp [resOf, hpe, hlookup]
  · -- sorted non-increasing by score
    have hsort : List.Pairwise distLe top := by
      rw [htop_def]
      exact (List.sorted_insertionSort distLe (distPairs index q)).sublist
        (List.take_sublist _ _)
    have hfsort : List.Pairwise distLe
        (top.filter (fun p => min_score ≤ 1 - p.1 / 2)) :=
      hsort.sublist (List.filter_sublist _)
    rw [hfilter]
    rw [List.pairwise_map]
    refine hfsort.imp ?_
    intro a b hab
    rw [resOf_score, resOf_score]
    have : a.1 ≤ b.1 := hab
    linarith

/-- The three-vector scenario store of spec §8: embeddings `[1,0]`, `[0,1]`,
`[0.9,0.1]`. -/
def idxS : IndexFlatL2 := ⟨2, [[1, 0], [0, 1], [9/10, 1/10]]⟩

/-- The chunk array aligned with `idxS`. -/
def chunksS : List Chunk :=
  [⟨['a'], ⟨['p'], 1⟩⟩, ⟨['b'], ⟨['p'], 1⟩⟩, ⟨['c'], ⟨['p'], 2⟩⟩]

/-- Witness for C1 at the spec §8 scenario: query `[1,0]`,
`min_score = 1/2`, `max_results = 3`. -/
theorem c1_ranking_contract_witness :
    ∃ res, query_faiss_core idxS chunksS [1, 0] (1/2) 3 = .ok res ∧
      (res.length : ℤ) ≤ 3 ∧
      (∀ r ∈ res, (1/2 : ℚ) ≤ r.score) ∧
      (∀ r ∈ res, ∃ i, i < idxS.xb.length ∧
        r.score = 1 - sqL2 [1, 0] (idxS.xb.getD i []) / 2 ∧
        r.text = (chunksS.getD i cDefault).text ∧
        r.metadata = (chunksS.getD i cDefault).metadata) ∧
      List.Pairwise (fun a b => b.score ≤ a.score) res :=
  c1_ranking_contract idxS chunksS [1, 0] (1/2) 3 (by norm_num) (by norm_num)
    (by norm_num) rfl rfl

/-! ## Claim C9 — the splitter size bound -/

/-- `totalOf` with no separator length is the plain fragment-length sum. -/
theorem totalOf_zero (cur : List (List Char)) : totalOf 0 cur = sumLen cur := by
  simp [totalOf]

/-- `sumLen` of an appended singleton. -/
theorem sumLen_append_singleton (cur : List (List Char)) (d : List Char) :
    sumLen (cur ++ [d]) = sumLen cur + d.length := by
  simp [sumLen]

/-- Joining with the empty separator concatenates the fragments, so the
length is the fragment-length sum. -/
theorem length_intercalate_nil (l : List (List Char)) :
    (List.intercalate [] l).length = sumLen l := by
  induction l with
  | nil => rfl
  | cons x xs ih =>
    cases xs with
    | nil => simp [List.intercalate, List.intersperse, sumLen]
    | cons y ys =>
      have hstep : List.intercalate ([] : List Char) (x :: y :: ys) =
          x ++ List.intercalate [] (y :: ys) := by
        simp [List.intercalate, List.intersperse]
      rw [hstep, List.length_append, ih]
      simp [sumLen]

/-- Stripping never lengthens a string. -/
theorem pyStrip_length_le (s : List Char) : (pyStrip s).length ≤ s.length := by
  unfold pyStrip
  calc (((s.dropWhile (· ∈ pySpace)).reverse.dropWhile
        (· ∈ pySpace)).reverse).length
      = ((s.dropWhile (· ∈ pySpace)).reverse.dropWhile
          (· ∈ pySpace)).length := by simp
    _ ≤ (s.dropWhile (· ∈ pySpace)).reverse.length :=
        (List.dropWhile_suffix _).sublist.length_le
    _ = (s.dropWhile (· ∈ pySpace)).length := by simp
    _ ≤ s.length := (List.dropWhile_suffix _).sublist.length_le

/-- A chunk produced by the empty-separator join is no longer than the sum of
the fragments joined. -/
theorem joinDocs_nil_sep_length {cur : List (List Char)} {doc : List Char}
    (h : joinDocs [] cur = some doc) : doc.length ≤ sumLen cur := by
  unfold joinDocs at h
  by_cases he : pyStrip (List.intercalate [] cur) = []
  · simp [he] at h
  · simp [he] at h
    rw [← h]
    exact le_trans (pyStrip_length_le _) (le_of_eq (length_intercalate_nil cur))

/-- What holds of `current_doc` when the pop loop stops (empty-separator
case): the retained total is within the overlap, and the next fragment fits —
or nothing is retained at all. -/
theorem popWhile_nil_sep_spec (cs ov nlen : ℕ) :
    ∀ cur : List (List Char),
      sumLen (popWhile cs ov 0 nlen cur) ≤ ov ∧
        (sumLen (popWhile cs ov 0 nlen cur) + nlen ≤ cs ∨
          sumLen (popWhile cs ov 0 nlen cur) = 0) := by
  intro cur
  induction cur with
  | nil => simp [popWhile, sumLen]
  | cons x rest ih =>
    simp only [popWhile, ite_self, totalOf_zero, Nat.add_zero]
    split
    · exact ih
    · rename_i hstop
      omega

/-- The merge invariant (empty-separator case): if every incoming fragment
fits in `chunk_size` and the running chunk currently fits, every chunk the
merge emits fits. -/
theorem mergeGo_nil_sep_bound (cs ov : ℕ) :
    ∀ splits cur : List (List Char),
      (∀ d ∈ splits, d.length ≤ cs) → sumLen cur ≤ cs →
      ∀ c ∈ mergeGo cs ov [] splits cur, c.length ≤ cs := by
  intro splits
  induction splits with
  | nil =>
    intro cur _ hcur c hc
    simp only [mergeGo] at hc
    cases hj : joinDocs [] cur with
    | none => rw [hj] at hc; simp at hc
    | some doc =>
      rw [hj] at hc
      simp only [List.mem_singleton] at hc
      rw [hc]
      exact le_trans (joinDocs_nil_sep_length hj) hcur
  | cons d rest ih =>
    intro cur hsplits hcur c hc
    have hd : d.length ≤ cs := hsplits d (List.mem_cons_self _ _)
    have hrest : ∀ x ∈ rest, x.length ≤ cs :=
      fun x hx => hsplits x (List.mem_cons_of_mem _ hx)
    simp only [mergeGo, List.length_nil, ite_self, Nat.add_zero,
      totalOf_zero] at hc
    by_cases hover : sumLen cur + d.length > cs
    · rw [if_pos hover] at hc
      by_cases hnil : cur = []
      · rw [if_pos hnil] at hc
        refine ih (cur ++ [d]) hrest ?_ c hc
        rw [hnil]
        simpa [sumLen] using hd
      · rw [if_neg hnil] at hc
        rcases List.mem_append.mp hc with hflush | hrec
        · cases hj : joinDocs [] cur with
          | none => rw [hj] at hflush; simp at hflush
          | some doc =>
            rw [hj] at hflush
            simp only [List.mem_singleton] at hflush
            rw [hflush]
            exact le_trans (joinDocs_nil_sep_length hj) hcur
        · refine ih _ hrest ?_ c hrec
          have hpop := popWhile_nil_sep_spec cs ov d.length cur
          rw [sumLen_append_singleton]
          omega
    · rw [if_neg hover] at hc
      refine ih (cur ++ [d]) hrest ?_ c hc
      rw [sumLen_append_singleton]
      omega

/-- The fragment loop preserves the bound: collected fragments fit, and
whatever the handler produces for an oversized fragment fits. -/
theorem splitLoop_bound (cs ov : ℕ) (hasNext : Bool)
    (recurse : List Char → List (List Char)) :
    ∀ splits goods : List (List Char),
      (∀ g ∈ goods, g.length ≤ cs) →
      (∀ s ∈ splits, ¬ s.length < cs →
        ∀ c ∈ (if hasNext then recurse s else [s]), c.length ≤ cs) →
      ∀ c ∈ splitLoop cs ov hasNext recurse splits goods, c.length ≤ cs := by
  intro splits
  induction splits with
  | nil =>
    intro goods hg _ c hc
    simp only [splitLoop] at hc
    by_cases hgn : goods = []
    · rw [if_pos hgn] at hc
      simp at hc
    · rw [if_neg hgn] at hc
      exact mergeGo_nil_sep_bound cs ov goods [] hg (by simp [sumLen]) c hc
  | cons s rest ih =>
    intro goods hg hbad c hc
    simp only [splitLoop] at hc
    by_cases hgood : s.length < cs
    · rw [if_pos hgood] at hc
      refine ih (goods ++ [s]) ?_ ?_ c hc
      · intro g hgm
        rcases List.mem_append.mp hgm with h | h
        · exact hg g h
        · rw [List.mem_singleton.mp h]
          exact le_of_lt hgood
      · exact fun x hx => hbad x (List.mem_cons_of_mem _ hx)
    · rw [if_neg hgood] at hc
      rcases List.mem_append.mp hc with hc2 | htail
      · rcases List.mem_append.mp hc2 with hflush | hhandler
        · by_cases hgn : goods = []
          · rw [if_pos hgn] at hflush
            simp at hflush
          · rw [if_neg hgn] at hflush
            exact mergeGo_nil_sep_bound cs ov goods [] hg (by simp [sumLen])
              c hflush
        · exact hbad s (List.mem_cons_self _ _) hgood c hhandler
      · refine ih [] (by simp) ?_ c htail
        exact fun x hx => hbad x (List.mem_cons_of_mem _ hx)

/-- At the empty separator every fragment is a single character. -/
theorem mem_splitTextWithSep_nil {text s : List Char}
    (h : s ∈ splitTextWithSep [] text) : s.length = 1 := by
  simp [splitTextWithSep] at h
  obtain ⟨⟨c, -, he⟩, -⟩ := h
  rw [← he]
  rfl

/-- The character-level fallback keeps every chunk within `chunk_size`. -/
theorem charLevel_bound (cs ov : ℕ) (hcs : 0 < cs) (text : List Char) :
    ∀ c ∈ splitLoop cs ov false (fun t => [t]) (splitTextWithSep [] text) [],
      c.length ≤ cs := by
  apply splitLoop_bound
  · simp
  · intro s hs _ c hc
    simp only [if_neg (by simp : ¬ false = true), List.mem_singleton] at hc
    rw [hc, mem_splitTextWithSep_nil hs]
    exact hcs

/-- Level `[""]` of the recursion keeps every chunk within `chunk_size`. -/
theorem splitBySeps3_bound (cs ov : ℕ) (hcs : 0 < cs) (text : List Char) :
    ∀ c ∈ splitBySeps3 cs ov text, c.length ≤ cs :=
  charLevel_bound cs ov hcs text

/-- Level `[" ", ""]` of the recursion keeps every chunk within
`chunk_size`. -/
theorem splitBySeps2_bound (cs ov : ℕ) (hcs : 0 < cs) (text : List Char) :
    ∀ c ∈ splitBySeps2 cs ov text, c.length ≤ cs := by
  unfold splitBySeps2
  split
  · apply splitLoop_bound
    · simp
    · intro s _ _ c hc
      rw [if_pos rfl] at hc
      exact splitBySeps3_bound cs ov hcs s c hc
  · exact charLevel_bound cs ov hcs text

/-- Level `["\n", " ", ""]` of the recursion keeps every chunk within
`chunk_size`. -/
theorem splitBySeps1_bound (cs ov : ℕ) (hcs : 0 < cs) (text : List Char) :
    ∀ c ∈ splitBySeps1 cs ov text, c.length ≤ cs := by
  unfold splitBySeps1
  split
  · apply splitLoop_bound
    · simp
    · intro s _ _ c hc
      rw [if_pos rfl] at hc
      exact splitBySeps2_bound cs ov hcs s c hc
  · split
    · apply splitLoop_bound
      · simp
      · intro s _ _ c hc
        rw [if_pos rfl] at hc
        exact splitBySeps3_bound cs ov hcs s c hc
    · exact charLevel_bound cs ov hcs text

/-- The full splitter keeps every chunk within `chunk_size`. -/
theorem rcSplitText_bound (cs ov : ℕ) (hcs : 0 < cs) (text : List Char) :
    ∀ c ∈ rcSplitText cs ov text, c.length ≤ cs := by
  unfold rcSplitText
  split
  · apply splitLoop_bound
    · simp
    · intro s _ _ c hc
      rw [if_pos rfl] at hc
      exact splitBySeps1_bound cs ov hcs s c hc
  · split
    · apply splitLoop_bound
      · simp
      · intro s _ _ c hc
        rw [if_pos rfl] at hc
        exact splitBySeps2_bound cs ov hcs s c hc
    · split
      · apply splitLoop_bound
        · simp
        · intro s _ _ c hc
          rw [if_pos rfl] at hc
          exact splitBySeps3_bound cs ov hcs s c hc
      · exact charLevel_bound cs ov hcs text

/-- C9: for every text and every valid `(chunk_size, overlap)` pair, every
chunk the recursive splitter produces has length at most `chunk_size` —
oversized fragments are recursed into by the next separator and single
characters at the empty-separator level are merged back into bounded runs —
and, at the source's fixed configuration (512, 50), every chunk `split_text`
produces has text of length at most 512. -/
theorem c9_splitter_size_bound :
    (∀ cs ov : ℕ, 0 < cs → ov < cs →
      ∀ text : List Char, ∀ c ∈ rcSplitText cs ov text, c.length ≤ cs) ∧
    (∀ text_data : List TextItem, ∀ ch ∈ split_text text_data,
      ch.text.length ≤ 512) := by
  constructor
  · intro cs ov hcs _ text c hc
    exact rcSplitText_bound cs ov hcs text c hc
  · intro text_data ch hch
    simp only [split_text, List.mem_flatten, List.mem_map] at hch
    obtain ⟨l, ⟨item, _, hl⟩, hchl⟩ := hch
    rw [← hl] at hchl
    simp only [List.mem_map] at hchl
    obtain ⟨c, hc, hce⟩ := hchl
    rw [← hce]
    exact rcSplitText_bound 512 50 (by norm_num) item.text c hc

/-- Witness for C9: splitting `"abc"` with `chunk_size = 2`, `overlap = 1`
produces the chunk `"ab"`, of length within the bound. -/
theorem c9_splitter_size_bound_witness :
    (['a', 'b'] ∈ rcSplitText 2 1 ['a', 'b', 'c']) ∧
      (['a', 'b'] : List Char).length ≤ 2 :=
  ⟨by decide,
    c9_splitter_size_bound.1 2 1 (by norm_num) (by norm_num) ['a', 'b', 'c']
      ['a', 'b'] (by decide)⟩

end Simscrape
